import Mathlib

/-!
Verification of the application-lifecycle / authorization core of the job-board
backend (ApplicationService, ApplicationController, JobService, JobController).

The database tables (Users, Jobs, Applications from nexus.sql) are embedded as
lists of records; `GETDATE()` is an explicit `now : Nat` parameter threaded into
every operation that writes timestamps.  SQL point queries become `List.find?`,
`UPDATE ... WHERE` becomes a `List.map` guarded by the `WHERE` predicate with
`rowsAffected` computed from the same predicate, and `INSERT` appends a row.
Only the columns actually read or written by the modelled operations are kept.
-/

namespace JobBoard

/-- The closed status enum: `Application['status']` in application.service.ts,
matching the `CHECK (status IN (...))` constraint on the Applications table. -/
inductive Status
| applied
| viewed
| shortlisted
| rejected
| accepted
deriving DecidableEq, Repr

/-- Actor role tag (`user_type` / `updaterType`): `'employer' | 'employee'`. -/
inductive Role
| employer
| employee
deriving DecidableEq, Repr

/-- A row of the Users table (columns used by the modelled operations). -/
structure User where
  id : Nat
  name : String
  email : String
deriving DecidableEq, Repr

/-- A row of the Jobs table (columns used by the modelled operations). -/
structure Job where
  id : Nat
  employer_id : Nat
  title : String
  is_active : Bool
  updated_at : Nat
deriving DecidableEq, Repr

/-- A row of the Applications table, as in the `Application` interface of
application.service.ts together with the attachment columns added by
`ALTER TABLE Applications` (resume_filename, resume_url, file_size) and the
free-text columns (cover_letter, phone_number, location). -/
structure Application where
  id : Nat
  job_id : Nat
  employee_id : Nat
  status : Status
  applied_at : Nat
  updated_at : Nat
  cover_letter : Option String
  phone_number : Option String
  location : Option String
  resume_filename : Option String
  resume_url : Option String
  file_size : Option Nat
deriving DecidableEq, Repr

/-- The database state: the three tables plus the IDENTITY counter that
generates the next Application id. -/
structure DB where
  users : List User
  jobs : List Job
  applications : List Application
  nextAppId : Nat
deriving DecidableEq, Repr

/-- The controller's whitelist: `validStatuses` in application.controller.ts. -/
def validStatuses : List String :=
  ["applied", "viewed", "shortlisted", "rejected", "accepted"]

/-- Mapping of raw status strings onto the enum; `none` for every string
outside the closed enum (those violate the schema CHECK constraint). -/
def parseStatus : String → Option Status
| "applied" => some .applied
| "viewed" => some .viewed
| "shortlisted" => some .shortlisted
| "rejected" => some .rejected
| "accepted" => some .accepted
| _ => none

/-- `SELECT ... FROM Applications WHERE id = @application_id` (point query). -/
def findApp (db : DB) (appId : Nat) : Option Application :=
  db.applications.find? (fun a => decide (a.id = appId))

/-- `SELECT ... FROM Jobs WHERE id = @job_id` (point query). -/
def findJob (db : DB) (jobId : Nat) : Option Job :=
  db.jobs.find? (fun j => decide (j.id = jobId))

/-- `SELECT ... FROM Users WHERE id = @user_id` (point query). -/
def findUser (db : DB) (userId : Nat) : Option User :=
  db.users.find? (fun u => decide (u.id = userId))

/-- Well-formedness of the database state, as guaranteed by the schema:
primary keys are unique and the foreign keys of every Application row and
every Job row resolve (referential integrity). -/
def Wf (db : DB) : Prop :=
  (db.applications.map (fun a => a.id)).Nodup ∧
  (db.jobs.map (fun j => j.id)).Nodup ∧
  (db.users.map (fun u => u.id)).Nodup ∧
  (∀ a ∈ db.applications, ∃ j ∈ db.jobs, j.id = a.job_id) ∧
  (∀ a ∈ db.applications, ∃ u ∈ db.users, u.id = a.employee_id) ∧
  (∀ j ∈ db.jobs, ∃ u ∈ db.users, u.id = j.employer_id)

instance (db : DB) : Decidable (Wf db) := by
  unfold Wf; infer_instance

/-- The spec's authorization rule for a status update, stated against the
persisted record: an employer must own the application's job, an employee must
be the applicant.  Used to state the claims about `updateApplicationStatus`. -/
def authorizedFor (db : DB) (a : Application) (uid : Nat) (role : Role) : Prop :=
  match role with
  | .employer => ∃ j ∈ db.jobs, j.id = a.job_id ∧ j.employer_id = uid
  | .employee => a.employee_id = uid

instance (db : DB) (a : Application) (uid : Nat) (role : Role) :
    Decidable (authorizedFor db a uid role) :=
  match role with
  | .employer => inferInstanceAs (Decidable (∃ j ∈ db.jobs, j.id = a.job_id ∧ j.employer_id = uid))
  | .employee => inferInstanceAs (Decidable (a.employee_id = uid))

/-- Payload of one notification dispatch attempt
(`AuthService.sendStatusUpdateEmail` call in application.service.ts). -/
structure Notification where
  application_id : Nat
  new_status : Status
  job_title : String
  employer_name : String
  employee_email : String
  employee_name : String
deriving DecidableEq, Repr

/-- The resume metadata argument of `applyForJob`. -/
structure ResumeData where
  filename : String
  originalName : String
  size : Nat
deriving DecidableEq, Repr

/-- The free-text application-data argument of `applyForJob`. -/
structure ApplicationData where
  cover_letter : String
  phone_number : String
  location : String
deriving DecidableEq, Repr

/-- The two distinct creation failures thrown by `applyForJob`
("You have already applied for this job" / "Job not found or no longer active"). -/
inductive ApplyError
| DuplicateApplication
| JobUnavailable
deriving DecidableEq, Repr

/-- Successful result of `applyForJob`: the row returned by `OUTPUT INSERTED.*`,
the post-insert database, and the list of notification dispatch attempts made
by the call (the source makes none on creation). -/
structure ApplyOk where
  app : Application
  db : DB
  attempts : List (Notification × Bool)
deriving DecidableEq, Repr

/-- `ApplicationService.applyForJob` (application.service.ts): duplicate check
on (job_id, employee_id) first, then active-job check, then the INSERT whose
omitted columns take the schema defaults `status = 'applied'`,
`applied_at = updated_at = GETDATE()`, and the generated IDENTITY id. -/
def ApplicationService.applyForJob (jobId employeeId : Nat)
    (resumeData : Option ResumeData) (applicationData : Option ApplicationData)
    (now : Nat) (db : DB) : Except ApplyError ApplyOk :=
  if db.applications.any
      (fun a => decide (a.job_id = jobId) && decide (a.employee_id = employeeId)) then
    .error .DuplicateApplication
  else
    match db.jobs.find? (fun j => decide (j.id = jobId) && j.is_active) with
    | none => .error .JobUnavailable
    | some _ =>
      let newApp : Application :=
        { id := db.nextAppId
          job_id := jobId
          employee_id := employeeId
          status := .applied
          applied_at := now
          updated_at := now
          cover_letter := applicationData.map (fun d => d.cover_letter)
          phone_number := applicationData.map (fun d => d.phone_number)
          location := applicationData.map (fun d => d.location)
          resume_filename := resumeData.map (fun r => r.filename)
          resume_url := resumeData.map (fun r => "/uploads/resumes/" ++ r.filename)
          file_size := resumeData.map (fun r => r.size) }
      .ok ⟨newApp,
           { db with
             applications := db.applications ++ [newApp]
             nextAppId := db.nextAppId + 1 },
           []⟩

/-- The row produced by the four-way INNER JOIN at the top of
`updateApplicationStatus` (Applications ⋈ Jobs ⋈ Users(employee) ⋈
Users(employer) WHERE a.id = @application_id). -/
structure AppDetails where
  app : Application
  employer_id : Nat
  job_title : String
  employer_name : String
  employee_email : String
  employee_name : String
deriving DecidableEq, Repr

/-- The joined lookup: `none` when the application row is missing or one of the
INNER JOINs fails to resolve (the service then returns `false`). -/
def getAppDetails (db : DB) (appId : Nat) : Option AppDetails :=
  match findApp db appId with
  | none => none
  | some a =>
    match findJob db a.job_id with
    | none => none
    | some j =>
      match findUser db a.employee_id with
      | none => none
      | some empUser =>
        match findUser db j.employer_id with
        | none => none
        | some employerUser =>
          some { app := a
                 employer_id := j.employer_id
                 job_title := j.title
                 employer_name := employerUser.name
                 employee_email := empUser.email
                 employee_name := empUser.name }

/-- The security check of `updateApplicationStatus`: an employer must own the
application's job (`appDetails.employer_id === updaterId`), an employee must be
the applicant (`appDetails.employee_id === updaterId`). -/
def canUpdate (d : AppDetails) (updaterId : Nat) (updaterType : Role) : Bool :=
  match updaterType with
  | .employer => decide (d.employer_id = updaterId)
  | .employee => decide (d.app.employee_id = updaterId)

/-- The WHERE clause of the UPDATE statement executed by
`updateApplicationStatus`: for an employer the joined form
`a.id = @application_id AND j.employer_id = @updater_id`, for an employee
`id = @application_id AND employee_id = @updater_id`. -/
def updateWhere (db : DB) (appId updaterId : Nat) (updaterType : Role)
    (a : Application) : Bool :=
  match updaterType with
  | .employer =>
    decide (a.id = appId) &&
      (match findJob db a.job_id with
       | some j => decide (j.employer_id = updaterId)
       | none => false)
  | .employee => decide (a.id = appId) && decide (a.employee_id = updaterId)

/-- Result of `updateApplicationStatus`: the returned boolean, the database
after the call, and the notification dispatch attempts made (payload paired
with whether the delivery succeeded; a failed delivery is caught and logged). -/
structure UpdateResult where
  ok : Bool
  db : DB
  attempts : List (Notification × Bool)
deriving DecidableEq, Repr

/-- `ApplicationService.updateApplicationStatus` (application.service.ts):
joined lookup, security check, the UPDATE setting `status` and
`updated_at = GETDATE()`, `updated := rowsAffected > 0`, and — only when
`updated` and the updater is an employer setting shortlisted/accepted/rejected —
one `sendStatusUpdateEmail` attempt whose failure is swallowed by the
`catch (emailError)` block.  `emailOk` is the outcome of that external
delivery. -/
def ApplicationService.updateApplicationStatus (appId : Nat) (st : Status)
    (updaterId : Nat) (updaterType : Role) (now : Nat) (emailOk : Bool)
    (db : DB) : UpdateResult :=
  match getAppDetails db appId with
  | none => ⟨false, db, []⟩
  | some d =>
    if canUpdate d updaterId updaterType then
      let pred := updateWhere db appId updaterId updaterType
      let apps' := db.applications.map
        (fun a => if pred a then { a with status := st, updated_at := now } else a)
      let updated := db.applications.any pred
      let db' : DB := { db with applications := apps' }
      if updated then
        let attempts :=
          if updaterType = .employer ∧
              (st = .shortlisted ∨ st = .accepted ∨ st = .rejected) then
            [({ application_id := appId
                new_status := st
                job_title := d.job_title
                employer_name := d.employer_name
                employee_email := d.employee_email
                employee_name := d.employee_name }, emailOk)]
          else []
        ⟨true, db', attempts⟩
      else ⟨false, db', []⟩
    else ⟨false, db, []⟩

/-- Outcome of the status update when invoked with a raw status string (the
runtime view, where the TypeScript annotation `Application['status']` has been
erased): either the function returns a boolean, or the UPDATE violates the
schema's CHECK constraint on `status` and the database error propagates out of
the service as an exception. -/
inductive RawOutcome
| returned (b : Bool)
| checkViolationRaised
deriving DecidableEq, Repr

/-- `updateApplicationStatus` on a raw status string.  The service body
performs no validation of `status`: the joined lookup and the security check
run on any string, and an out-of-enum value first fails at the UPDATE itself,
where the `CHECK (status IN (...))` constraint of the Applications table
rejects the write and the driver error is thrown (no try/catch in the
service), leaving the row unchanged. -/
def ApplicationService.updateApplicationStatusRaw (appId : Nat) (s : String)
    (updaterId : Nat) (updaterType : Role) (now : Nat) (emailOk : Bool)
    (db : DB) : RawOutcome × DB × List (Notification × Bool) :=
  match getAppDetails db appId with
  | none => (.returned false, db, [])
  | some d =>
    if canUpdate d updaterId updaterType then
      match parseStatus s with
      | none => (.checkViolationRaised, db, [])
      | some st =>
        let r := ApplicationService.updateApplicationStatus appId st updaterId
          updaterType now emailOk db
        (.returned r.ok, r.db, r.attempts)
    else (.returned false, db, [])

/-- A row of the employer-scoped application listing: the SELECT list of
`getEmployerApplications`, including the resolved `j.employer_id`. -/
structure EmployerAppRow where
  app : Application
  job_title : String
  employer_id : Nat
  employee_name : String
  employer_name : String
deriving DecidableEq, Repr

/-- `ApplicationService.getEmployerApplications` (application.service.ts):
Applications INNER JOIN Jobs INNER JOIN Users (employee) INNER JOIN Users
(employer) restricted by `WHERE j.employer_id = @employer_id`. -/
def ApplicationService.getEmployerApplications (employerId : Nat) (db : DB) :
    List EmployerAppRow :=
  db.applications.filterMap (fun a =>
    match findJob db a.job_id with
    | none => none
    | some j =>
      if j.employer_id = employerId then
        match findUser db a.employee_id with
        | none => none
        | some e =>
          match findUser db j.employer_id with
          | none => none
          | some emp =>
            some { app := a
                   job_title := j.title
                   employer_id := j.employer_id
                   employee_name := e.name
                   employer_name := emp.name }
      else none)

/-- The defensive post-query filter in
`ApplicationController.getEmployerApplications` (application.controller.ts):
`applications.filter(app => app.employer_id === user.userId)`. -/
def ApplicationController.authorizedApplications (userId : Nat)
    (rows : List EmployerAppRow) : List EmployerAppRow :=
  rows.filter (fun r => decide (r.employer_id = userId))

/-- The row returned by `ApplicationService.getApplicationById`
(Applications ⋈ Jobs ⋈ Users(employee) WHERE a.id = @application_id). -/
structure AppByIdRow where
  app : Application
  employer_id : Nat
  job_title : String
  employee_name : String
deriving DecidableEq, Repr

/-- `ApplicationService.getApplicationById` (application.service.ts). -/
def ApplicationService.getApplicationById (db : DB) (appId : Nat) :
    Option AppByIdRow :=
  match findApp db appId with
  | none => none
  | some a =>
    match findJob db a.job_id with
    | none => none
    | some j =>
      match findUser db a.employee_id with
      | none => none
      | some u =>
        some { app := a
               employer_id := j.employer_id
               job_title := j.title
               employee_name := u.name }

/-- HTTP-level responses of `ApplicationController.updateApplicationStatus`:
constructor per (status code, error message) pair produced by the handler. -/
inductive CtrlResponse
| badRequest (msg : String)
| notFound (msg : String)
| forbidden (msg : String)
| okResp
| serverError
deriving DecidableEq, Repr

/-- `ApplicationController.updateApplicationStatus`
(application.controller.ts): whitelist validation of the raw status string
(400), then — for an employer caller only — the `getApplicationById` pre-check
distinguishing 404 'Application not found' from 403 'Access denied', then the
service call; a `false` service result maps to 404 'Application not found or
access denied', a thrown error (e.g. the CHECK violation) to the catch-all
500. -/
def ApplicationController.updateApplicationStatus (appId : Nat) (s : String)
    (userId : Nat) (userType : Role) (now : Nat) (emailOk : Bool) (db : DB) :
    CtrlResponse × DB × List (Notification × Bool) :=
  if ¬ (s ∈ validStatuses) then
    (.badRequest "Valid status is required", db, [])
  else
    let proceed : CtrlResponse × DB × List (Notification × Bool) :=
      match ApplicationService.updateApplicationStatusRaw appId s userId
          userType now emailOk db with
      | (.returned true, db', at') => (.okResp, db', at')
      | (.returned false, db', at') =>
        (.notFound "Application not found or access denied", db', at')
      | (.checkViolationRaised, db', at') => (.serverError, db', at')
    match userType with
    | .employer =>
      match ApplicationService.getApplicationById db appId with
      | none => (.notFound "Application not found", db, [])
      | some row =>
        if row.employer_id ≠ userId then (.forbidden "Access denied", db, [])
        else proceed
    | .employee => proceed

/-- `JobService.getJobById` (job.service.ts, employer-aware variant):
`WHERE j.id = @job_id` joined with Users; the public view (no `employerId`
argument) additionally requires `j.is_active = 1`, the employer view requires
`j.employer_id = @employer_id` instead. -/
def JobService.getJobById (jobId : Nat) (employerId : Option Nat) (db : DB) :
    Option Job :=
  match db.jobs.find? (fun j =>
      decide (j.id = jobId) &&
        (match employerId with
         | some e => decide (j.employer_id = e)
         | none => j.is_active)) with
  | none => none
  | some j =>
    match findUser db j.employer_id with
    | none => none
    | some _ => some j

/-- Number of Applications rows referencing a job:
`SELECT COUNT(*) FROM Applications WHERE job_id = @job_id`. -/
def countApplicationsForJob (jobId : Nat) (db : DB) : Nat :=
  (db.applications.filter (fun a => decide (a.job_id = jobId))).length

/-- `JobService.checkJobHasApplications` (job.service.ts):
`application_count > 0`. -/
def JobService.checkJobHasApplications (jobId : Nat) (db : DB) : Bool :=
  decide (0 < countApplicationsForJob jobId db)

/-- `JobService.deleteJob` (job.service.ts) — the soft delete:
`UPDATE Jobs SET is_active = 0, updated_at = GETDATE() WHERE id = @job_id AND
employer_id = @employer_id`, returning `rowsAffected > 0`. -/
def JobService.deleteJob (jobId employerId : Nat) (now : Nat) (db : DB) :
    Bool × DB :=
  let hit := fun (j : Job) => decide (j.id = jobId) && decide (j.employer_id = employerId)
  let jobs' := db.jobs.map
    (fun j => if hit j then { j with is_active := false, updated_at := now } else j)
  (db.jobs.any hit, { db with jobs := jobs' })

/-- `JobService.hardDeleteJob` (job.service.ts):
`DELETE FROM Jobs WHERE id = @job_id AND employer_id = @employer_id`.
Deleting a row still referenced by an Applications row violates the foreign
key and the driver raises a REFERENCE-constraint error (`.error`). -/
def JobService.hardDeleteJob (jobId employerId : Nat) (db : DB) :
    Except Unit (Bool × DB) :=
  let hit := fun (j : Job) => decide (j.id = jobId) && decide (j.employer_id = employerId)
  if db.jobs.any hit ∧ 0 < countApplicationsForJob jobId db then
    .error ()
  else
    (.ok (db.jobs.any hit, { db with jobs := db.jobs.filter (fun j => ¬ hit j) }))

/-- Responses of `JobController.deleteJob`, one constructor per
(status code, message shape); `blockedWithCount n` is the 400 response carrying
the blocking-application count `n`, `blockedNoCount` the catch-block 400
response for a REFERENCE-constraint error, which has no count. -/
inductive JobDeleteResponse
| forbiddenRole
| notFoundJob
| notOwner
| blockedWithCount (n : Nat)
| blockedNoCount
| notFoundOrDenied
| deleted
deriving DecidableEq, Repr

/-- `JobController.deleteJob` (job controller): employer-only, public
`getJobById` lookup (which only sees active jobs), ownership check,
application guard reporting the blocking count, then the hard delete with the
REFERENCE-constraint catch. -/
def JobController.deleteJob (jobId userId : Nat) (userType : Role) (db : DB) :
    JobDeleteResponse × DB :=
  match userType with
  | .employee => (.forbiddenRole, db)
  | .employer =>
    match JobService.getJobById jobId none db with
    | none => (.notFoundJob, db)
    | some job =>
      if job.employer_id ≠ userId then (.notOwner, db)
      else if JobService.checkJobHasApplications jobId db then
        (.blockedWithCount (countApplicationsForJob jobId db), db)
      else
        match JobService.hardDeleteJob jobId userId db with
        | .error _ => (.blockedNoCount, db)
        | .ok (true, db') => (.deleted, db')
        | .ok (false, db') => (.notFoundOrDenied, db')

/-- Concrete fixture: employer 1 owning active job 10 and inactive job 11,
employee 4 with an existing application 100 for job 10. -/
def dbW : DB :=
  { users := [{ id := 1, name := "M", email := "m" },
              { id := 4, name := "E", email := "e" }]
    jobs := [{ id := 10, employer_id := 1, title := "T", is_active := true, updated_at := 0 },
             { id := 11, employer_id := 1, title := "U", is_active := false, updated_at := 0 }]
    applications := [{ id := 100, job_id := 10, employee_id := 4,
                       status := .applied, applied_at := 0, updated_at := 0,
                       cover_letter := none, phone_number := none, location := none,
                       resume_filename := none, resume_url := none, file_size := none }]
    nextAppId := 101 }

/-- Concrete fixture for the job-deletion claim: the inactive job 11, owned by
employer 1, still has one application. -/
def db7 : DB :=
  { users := [{ id := 1, name := "M", email := "m" },
              { id := 4, name := "E", email := "e" }]
    jobs := [{ id := 11, employer_id := 1, title := "U", is_active := false, updated_at := 0 }]
    applications := [{ id := 100, job_id := 11, employee_id := 4,
                       status := .applied, applied_at := 0, updated_at := 0,
                       cover_letter := none, phone_number := none, location := none,
                       resume_filename := none, resume_url := none, file_size := none }]
    nextAppId := 101 }

/- Generic lemmas relating `find?` on a key predicate to membership, under
uniqueness of the key column. -/

theorem mem_of_find?_key {α : Type} (key : α → Nat) {l : List α} {k : Nat} {a : α}
    (h : l.find? (fun x => decide (key x = k)) = some a) : a ∈ l ∧ key a = k := by
  refine ⟨List.mem_of_find?_eq_some h, ?_⟩
  have hp := List.find?_some h
  simpa using hp

theorem find?_key_of_mem {α : Type} (key : α → Nat) {l : List α}
    (hnd : (l.map key).Nodup) {a : α} (ha : a ∈ l) {k : Nat} (hk : key a = k) :
    l.find? (fun x => decide (key x = k)) = some a := by
  induction l with
  | nil => cases ha
  | cons b t ih =>
    simp only [List.map_cons, List.nodup_cons] at hnd
    obtain ⟨hbn, hnd'⟩ := hnd
    rcases List.mem_cons.mp ha with h | hat
    · subst h
      exact List.find?_cons_of_pos _ (by simp [hk])
    · by_cases hb : key b = k
      · exfalso
        have hmem : key a ∈ t.map key := List.mem_map_of_mem key hat
        rw [hk, ← hb] at hmem
        exact hbn hmem
      · rw [List.find?_cons_of_neg _ (by simp [hb])]
        exact ih hnd' hat

theorem key_inj_of_nodup {α : Type} (key : α → Nat) {l : List α}
    (hnd : (l.map key).Nodup) {a b : α} (ha : a ∈ l) (hb : b ∈ l)
    (hk : key a = key b) : a = b := by
  induction l with
  | nil => cases ha
  | cons c t ih =>
    simp only [List.map_cons, List.nodup_cons] at hnd
    obtain ⟨hcn, hnd'⟩ := hnd
    rcases List.mem_cons.mp ha with h | hat
    · rcases List.mem_cons.mp hb with h' | hbt
      · rw [h, h']
      · exfalso
        subst h
        have : key b ∈ t.map key := List.mem_map_of_mem key hbt
        rw [← hk] at this
        exact hcn this
    · rcases List.mem_cons.mp hb with h' | hbt
      · exfalso
        subst h'
        have : key a ∈ t.map key := List.mem_map_of_mem key hat
        rw [hk] at this
        exact hcn this
      · exact ih hnd' hat hbt

/- Specialisations of the key lemmas to the three point queries. -/

theorem findApp_spec {db : DB} {appId : Nat} {a : Application}
    (h : findApp db appId = some a) : a ∈ db.applications ∧ a.id = appId := by
  unfold findApp at h
  exact mem_of_find?_key (fun x : Application => x.id) h

theorem findApp_of_mem {db : DB} {appId : Nat}
    (hnd : (db.applications.map (fun a => a.id)).Nodup) {a : Application}
    (ha : a ∈ db.applications) (hid : a.id = appId) : findApp db appId = some a := by
  unfold findApp
  exact find?_key_of_mem (fun x : Application => x.id) hnd ha hid

theorem findJob_spec {db : DB} {jobId : Nat} {j : Job}
    (h : findJob db jobId = some j) : j ∈ db.jobs ∧ j.id = jobId := by
  unfold findJob at h
  exact mem_of_find?_key (fun x : Job => x.id) h

theorem findJob_of_mem {db : DB} {jobId : Nat}
    (hnd : (db.jobs.map (fun j => j.id)).Nodup) {j : Job}
    (hj : j ∈ db.jobs) (hid : j.id = jobId) : findJob db jobId = some j := by
  unfold findJob
  exact find?_key_of_mem (fun x : Job => x.id) hnd hj hid

theorem findUser_of_mem {db : DB} {userId : Nat}
    (hnd : (db.users.map (fun u => u.id)).Nodup) {u : User}
    (hu : u ∈ db.users) (hid : u.id = userId) : findUser db userId = some u := by
  unfold findUser
  exact find?_key_of_mem (fun x : User => x.id) hnd hu hid

/- Characterisation of the joined lookup `getAppDetails`. -/

theorem getAppDetails_spec {db : DB} {appId : Nat} {d : AppDetails}
    (h : getAppDetails db appId = some d) :
    d.app ∈ db.applications ∧ d.app.id = appId ∧
    ∃ j, findJob db d.app.job_id = some j ∧ j ∈ db.jobs ∧ j.id = d.app.job_id ∧
      d.employer_id = j.employer_id ∧ d.job_title = j.title ∧
      (∃ eu, findUser db d.app.employee_id = some eu ∧
        d.employee_email = eu.email ∧ d.employee_name = eu.name) ∧
      (∃ mu, findUser db j.employer_id = some mu ∧ d.employer_name = mu.name) := by
  unfold getAppDetails at h
  cases hfa : findApp db appId with
  | none => simp [hfa] at h
  | some a =>
    simp only [hfa] at h
    cases hfj : findJob db a.job_id with
    | none => simp [hfj] at h
    | some j =>
      simp only [hfj] at h
      cases hfu : findUser db a.employee_id with
      | none => simp [hfu] at h
      | some u =>
        simp only [hfu] at h
        cases hfm : findUser db j.employer_id with
        | none => simp [hfm] at h
        | some m =>
          simp only [hfm, Option.some.injEq] at h
          subst h
          obtain ⟨hmem, hid⟩ := findApp_spec hfa
          obtain ⟨hjmem, hjid⟩ := findJob_spec hfj
          exact ⟨hmem, hid, j, hfj, hjmem, hjid, rfl, rfl,
                 ⟨u, hfu, rfl, rfl⟩, ⟨m, hfm, rfl⟩⟩

theorem getAppDetails_of_mem {db : DB} {appId : Nat} (hwf : Wf db)
    {a : Application} (ha : a ∈ db.applications) (hid : a.id = appId) :
    ∃ d, getAppDetails db appId = some d ∧ d.app = a := by
  obtain ⟨hnda, hndj, hndu, hint1, hint2, hint3⟩ := hwf
  have hfa : findApp db appId = some a := findApp_of_mem hnda ha hid
  obtain ⟨j, hjmem, hjid⟩ := hint1 a ha
  have hfj : findJob db a.job_id = some j := findJob_of_mem hndj hjmem hjid
  obtain ⟨u, humem, huid⟩ := hint2 a ha
  have hfu : findUser db a.employee_id = some u := findUser_of_mem hndu humem huid
  obtain ⟨m, hmmem, hmid⟩ := hint3 j hjmem
  have hfm : findUser db j.employer_id = some m := findUser_of_mem hndu hmmem hmid
  refine ⟨{ app := a, employer_id := j.employer_id, job_title := j.title,
            employer_name := m.name, employee_email := u.email,
            employee_name := u.name }, ?_, rfl⟩
  unfold getAppDetails
  simp only [hfa, hfj, hfu, hfm]

/- Characterisation of the UPDATE's WHERE clause. -/

theorem updateWhere_id {db : DB} {appId uid : Nat} {role : Role} {b : Application}
    (h : updateWhere db appId uid role b = true) : b.id = appId := by
  unfold updateWhere at h
  cases role <;> simp only [Bool.and_eq_true, decide_eq_true_eq] at h <;> exact h.1

theorem updateWhere_of_details {db : DB} {appId uid : Nat} {role : Role}
    {d : AppDetails} (hd : getAppDetails db appId = some d)
    (hc : canUpdate d uid role = true) :
    updateWhere db appId uid role d.app = true := by
  obtain ⟨hmem, hid, j, hfj, hjmem, hjid, hemp, _, _, _⟩ := getAppDetails_spec hd
  cases role with
  | employer =>
    unfold canUpdate at hc
    simp only [decide_eq_true_eq] at hc
    unfold updateWhere
    simp [hid, hfj, hemp.symm.trans hc]
  | employee =>
    unfold canUpdate at hc
    simp only [decide_eq_true_eq] at hc
    unfold updateWhere
    simp [hid, hc]

/-- When the joined lookup succeeds and the security check passes, the service
takes the update branch: `rowsAffected > 0` holds, the committed table is the
guarded pointwise update, and the dispatch attempts are determined by the role
and the new status. -/
theorem updateStatus_auth_unfold {db : DB} {appId uid : Nat} {role : Role}
    {d : AppDetails} (st : Status) (now : Nat) (emailOk : Bool)
    (hd : getAppDetails db appId = some d)
    (hc : canUpdate d uid role = true) :
    ApplicationService.updateApplicationStatus appId st uid role now emailOk db =
      ⟨true,
       { db with applications :=
           db.applications.map (fun a =>
             if updateWhere db appId uid role a then
               { a with status := st, updated_at := now }
             else a) },
       if role = .employer ∧ (st = .shortlisted ∨ st = .accepted ∨ st = .rejected) then
         [({ application_id := appId, new_status := st, job_title := d.job_title,
             employer_name := d.employer_name, employee_email := d.employee_email,
             employee_name := d.employee_name }, emailOk)]
       else []⟩ := by
  have hpred := updateWhere_of_details hd hc
  have hany : db.applications.any (updateWhere db appId uid role) = true :=
    List.any_eq_true.mpr ⟨d.app, (getAppDetails_spec hd).1, hpred⟩
  unfold ApplicationService.updateApplicationStatus
  simp only [hd, hc, if_true, hany]

/-- When the service returns `false` it has not touched the database and made
no dispatch attempt. -/
theorem updateStatus_false_frame {db : DB} {appId uid : Nat} {role : Role}
    (st : Status) (now : Nat) (emailOk : Bool)
    (hok : (ApplicationService.updateApplicationStatus appId st uid role now
      emailOk db).ok = false) :
    (ApplicationService.updateApplicationStatus appId st uid role now emailOk db).db
        = db ∧
    (ApplicationService.updateApplicationStatus appId st uid role now emailOk
      db).attempts = [] := by
  cases hd : getAppDetails db appId with
  | none =>
    unfold ApplicationService.updateApplicationStatus
    simp [hd]
  | some d =>
    by_cases hc : canUpdate d uid role = true
    · rw [updateStatus_auth_unfold st now emailOk hd hc] at hok
      simp at hok
    · unfold ApplicationService.updateApplicationStatus
      simp only [Bool.not_eq_true] at hc
      simp [hd, hc]

/-- The returned boolean is `true` exactly when the target application exists
and the actor passes the spec's authorization rule against the persisted
record. -/
theorem updateStatus_ok_iff {db : DB} {appId uid : Nat} {role : Role}
    (st : Status) (now : Nat) (emailOk : Bool) (hwf : Wf db) :
    (ApplicationService.updateApplicationStatus appId st uid role now emailOk
        db).ok = true ↔
      ∃ a ∈ db.applications, a.id = appId ∧ authorizedFor db a uid role := by
  constructor
  · intro hok
    cases hd : getAppDetails db appId with
    | none =>
      exfalso
      unfold ApplicationService.updateApplicationStatus at hok
      simp [hd] at hok
    | some d =>
      by_cases hc : canUpdate d uid role = true
      · obtain ⟨hmem, hid, j, hfj, hjmem, hjid, hemp, _, _, _⟩ := getAppDetails_spec hd
        refine ⟨d.app, hmem, hid, ?_⟩
        cases role with
        | employer =>
          unfold canUpdate at hc
          simp only [decide_eq_true_eq] at hc
          exact ⟨j, hjmem, hjid, hemp.symm.trans hc⟩
        | employee =>
          unfold canUpdate at hc
          simp only [decide_eq_true_eq] at hc
          exact hc
      · exfalso
        unfold ApplicationService.updateApplicationStatus at hok
        simp only [Bool.not_eq_true] at hc
        simp [hd, hc] at hok
  · rintro ⟨a, ha, hid, hauth⟩
    obtain ⟨d, hd, hda⟩ := getAppDetails_of_mem hwf ha hid
    have hc : canUpdate d uid role = true := by
      obtain ⟨hmem, hid', j, hfj, hjmem, hjid, hemp, _, _, _⟩ := getAppDetails_spec hd
      cases role with
      | employer =>
        obtain ⟨j', hj'mem, hj'id, hj'emp⟩ := hauth
        have hjj : j' = j := key_inj_of_nodup (fun j : Job => j.id) hwf.2.1 hj'mem hjmem
          (by show j'.id = j.id; rw [hj'id, hjid, hda])
        unfold canUpdate
        simp only [decide_eq_true_eq]
        rw [hemp, ← hjj]
        exact hj'emp
      | employee =>
        unfold canUpdate
        simp only [decide_eq_true_eq]
        rw [hda]
        exact hauth
    rw [updateStatus_auth_unfold st now emailOk hd hc]

theorem getAppDetails_findApp {db : DB} {appId : Nat} {d : AppDetails}
    (h : getAppDetails db appId = some d) : findApp db appId = some d.app := by
  unfold getAppDetails at h
  cases hfa : findApp db appId with
  | none => simp [hfa] at h
  | some a =>
    simp only [hfa] at h
    cases hfj : findJob db a.job_id with
    | none => simp [hfj] at h
    | some j =>
      simp only [hfj] at h
      cases hfu : findUser db a.employee_id with
      | none => simp [hfu] at h
      | some u =>
        simp only [hfu] at h
        cases hfm : findUser db j.employer_id with
        | none => simp [hfm] at h
        | some m =>
          simp only [hfm, Option.some.injEq] at h
          subst h
          rfl

/-- A `true` return forces the joined lookup and the security check to have
succeeded. -/
theorem updateStatus_ok_cases {db : DB} {appId uid : Nat} {role : Role}
    {st : Status} {now : Nat} {emailOk : Bool}
    (hok : (ApplicationService.updateApplicationStatus appId st uid role now
      emailOk db).ok = true) :
    ∃ d, getAppDetails db appId = some d ∧ canUpdate d uid role = true := by
  cases hd : getAppDetails db appId with
  | none =>
    exfalso
    unfold ApplicationService.updateApplicationStatus at hok
    simp [hd] at hok
  | some d =>
    by_cases hc : canUpdate d uid role = true
    · exact ⟨d, rfl, hc⟩
    · exfalso
      unfold ApplicationService.updateApplicationStatus at hok
      simp only [Bool.not_eq_true] at hc
      simp [hd, hc] at hok

/-- A successful update commits the row with the new status and refreshed
`updated_at`. -/
theorem updateStatus_commit {db : DB} {appId uid : Nat} {role : Role}
    (st : Status) (now : Nat) (emailOk : Bool) {d : AppDetails}
    (hd : getAppDetails db appId = some d)
    (hc : canUpdate d uid role = true) :
    { d.app with status := st, updated_at := now } ∈
      (ApplicationService.updateApplicationStatus appId st uid role now emailOk
        db).db.applications := by
  rw [updateStatus_auth_unfold st now emailOk hd hc]
  have hpred := updateWhere_of_details hd hc
  have hmem := (getAppDetails_spec hd).1
  have heq : ({ d.app with status := st, updated_at := now } : Application) =
      (if updateWhere db appId uid role d.app then
        { d.app with status := st, updated_at := now } else d.app) := by
    rw [if_pos hpred]
  rw [heq]
  exact List.mem_map_of_mem _ hmem

/-- C2: `applyForJob` fails with `DuplicateApplication` whenever an
application for (job_id, employee_id) already exists — regardless of the job's
state, since the duplicate check runs first — and, absent a duplicate, fails
with `JobUnavailable` whenever no job with that id is active. -/
theorem C2_apply_precondition_order (jobId employeeId : Nat)
    (rd : Option ResumeData) (ad : Option ApplicationData) (now : Nat) (db : DB) :
    ((∃ a ∈ db.applications, a.job_id = jobId ∧ a.employee_id = employeeId) →
      ApplicationService.applyForJob jobId employeeId rd ad now db =
        .error .DuplicateApplication) ∧
    ((¬ ∃ a ∈ db.applications, a.job_id = jobId ∧ a.employee_id = employeeId) →
     (¬ ∃ j ∈ db.jobs, j.id = jobId ∧ j.is_active = true) →
      ApplicationService.applyForJob jobId employeeId rd ad now db =
        .error .JobUnavailable) := by
  constructor
  · intro hdup
    obtain ⟨a, ha, h1, h2⟩ := hdup
    have hany : db.applications.any
        (fun a => decide (a.job_id = jobId) && decide (a.employee_id = employeeId)) = true :=
      List.any_eq_true.mpr ⟨a, ha, by simp [h1, h2]⟩
    unfold ApplicationService.applyForJob
    rw [if_pos hany]
  · intro hdup hjob
    have hany : ¬ (db.applications.any
        (fun a => decide (a.job_id = jobId) && decide (a.employee_id = employeeId)) = true) := by
      intro h
      obtain ⟨a, ha, hp⟩ := List.any_eq_true.mp h
      simp only [Bool.and_eq_true, decide_eq_true_eq] at hp
      exact hdup ⟨a, ha, hp.1, hp.2⟩
    have hf : db.jobs.find? (fun j => decide (j.id = jobId) && j.is_active) = none := by
      rw [List.find?_eq_none]
      intro j hj hp
      simp only [Bool.and_eq_true, decide_eq_true_eq] at hp
      exact hjob ⟨j, hj, hp.1, hp.2⟩
    unfold ApplicationService.applyForJob
    rw [if_neg hany, hf]

/-- Witness for C2: in the fixture, a second application by employee 4 for job
10 is a duplicate even though that check precedes any job lookup, and a fresh
application for the inactive job 11 is `JobUnavailable`. -/
theorem C2_apply_precondition_order_witness :
    ((∃ a ∈ dbW.applications, a.job_id = 10 ∧ a.employee_id = 4) ∧
      ApplicationService.applyForJob 10 4 none none 5 dbW =
        .error .DuplicateApplication) ∧
    ((¬ ∃ a ∈ dbW.applications, a.job_id = 11 ∧ a.employee_id = 5) ∧
     (¬ ∃ j ∈ dbW.jobs, j.id = 11 ∧ j.is_active = true) ∧
      ApplicationService.applyForJob 11 5 none none 5 dbW =
        .error .JobUnavailable) :=
  ⟨⟨by decide, (C2_apply_precondition_order 10 4 none none 5 dbW).1 (by decide)⟩,
   ⟨by decide, by decide,
    (C2_apply_precondition_order 11 5 none none 5 dbW).2 (by decide) (by decide)⟩⟩

/-- C5: when the preconditions hold, `applyForJob` inserts exactly one new row
carrying `status = applied`, both timestamps equal to now, the generated id,
and the attachment fields verbatim from the input; it makes no notification
dispatch attempt and returns the persisted record. -/
theorem C5_apply_success_effect (jobId employeeId : Nat) (rd : Option ResumeData)
    (ad : Option ApplicationData) (now : Nat) (db : DB)
    (hdup : ¬ ∃ a ∈ db.applications, a.job_id = jobId ∧ a.employee_id = employeeId)
    (hjob : ∃ j ∈ db.jobs, j.id = jobId ∧ j.is_active = true) :
    ∃ res : ApplyOk,
      ApplicationService.applyForJob jobId employeeId rd ad now db = .ok res ∧
      res.app.id = db.nextAppId ∧
      res.app.job_id = jobId ∧
      res.app.employee_id = employeeId ∧
      res.app.status = .applied ∧
      res.app.applied_at = now ∧
      res.app.updated_at = now ∧
      res.app.resume_filename = rd.map (fun r => r.filename) ∧
      res.app.file_size = rd.map (fun r => r.size) ∧
      res.app.cover_letter = ad.map (fun d => d.cover_letter) ∧
      res.app.phone_number = ad.map (fun d => d.phone_number) ∧
      res.app.location = ad.map (fun d => d.location) ∧
      res.db.applications = db.applications ++ [res.app] ∧
      res.db.nextAppId = db.nextAppId + 1 ∧
      res.attempts = [] := by
  have hany : ¬ (db.applications.any
      (fun a => decide (a.job_id = jobId) && decide (a.employee_id = employeeId)) = true) := by
    intro h
    obtain ⟨a, ha, hp⟩ := List.any_eq_true.mp h
    simp only [Bool.and_eq_true, decide_eq_true_eq] at hp
    exact hdup ⟨a, ha, hp.1, hp.2⟩
  obtain ⟨j, hjmem, hjid, hjact⟩ := hjob
  have hsome : (db.jobs.find? (fun j => decide (j.id = jobId) && j.is_active)).isSome := by
    rw [List.find?_isSome]
    exact ⟨j, hjmem, by simp [hjid, hjact]⟩
  unfold ApplicationService.applyForJob
  rw [if_neg hany]
  cases hf : db.jobs.find? (fun j => decide (j.id = jobId) && j.is_active) with
  | none => rw [hf] at hsome; simp at hsome
  | some j' => exact ⟨_, rfl, by simp⟩

/-- Witness for C5: employee 5 applies to the active job 10 with a resume and
free-text data; the insert carries every field verbatim. -/
theorem C5_apply_success_effect_witness :
    (¬ ∃ a ∈ dbW.applications, a.job_id = 10 ∧ a.employee_id = 5) ∧
    (∃ j ∈ dbW.jobs, j.id = 10 ∧ j.is_active = true) ∧
    ∃ res : ApplyOk,
      ApplicationService.applyForJob 10 5 (some ⟨"r", "o", 7⟩)
        (some ⟨"c", "p", "l"⟩) 5 dbW = .ok res ∧
      res.app.id = dbW.nextAppId ∧
      res.app.job_id = 10 ∧
      res.app.employee_id = 5 ∧
      res.app.status = .applied ∧
      res.app.applied_at = 5 ∧
      res.app.updated_at = 5 ∧
      res.app.resume_filename = (some (⟨"r", "o", 7⟩ : ResumeData)).map (fun r => r.filename) ∧
      res.app.file_size = (some (⟨"r", "o", 7⟩ : ResumeData)).map (fun r => r.size) ∧
      res.app.cover_letter = (some (⟨"c", "p", "l"⟩ : ApplicationData)).map (fun d => d.cover_letter) ∧
      res.app.phone_number = (some (⟨"c", "p", "l"⟩ : ApplicationData)).map (fun d => d.phone_number) ∧
      res.app.location = (some (⟨"c", "p", "l"⟩ : ApplicationData)).map (fun d => d.location) ∧
      res.db.applications = dbW.applications ++ [res.app] ∧
      res.db.nextAppId = dbW.nextAppId + 1 ∧
      res.attempts = [] :=
  ⟨by decide, by decide,
   C5_apply_success_effect 10 5 (some ⟨"r", "o", 7⟩) (some ⟨"c", "p", "l"⟩) 5 dbW
     (by decide) (by decide)⟩

/-- C6: `getEmployerApplications X` only ever returns rows whose resolved
job's `employer_id` equals `X` (query layer), and the controller's defensive
filter guarantees the same on an arbitrary row list (belt-and-suspenders
layer). -/
theorem C6_employer_scoping (X : Nat) (db : DB) :
    (∀ r ∈ ApplicationService.getEmployerApplications X db, r.employer_id = X) ∧
    (∀ rows : List EmployerAppRow,
      ∀ r ∈ ApplicationController.authorizedApplications X rows, r.employer_id = X) := by
  constructor
  · intro r hr
    unfold ApplicationService.getEmployerApplications at hr
    obtain ⟨a, ha, hfa⟩ := List.mem_filterMap.mp hr
    cases hj : findJob db a.job_id with
    | none => simp [hj] at hfa
    | some j =>
      simp only [hj] at hfa
      by_cases he : j.employer_id = X
      · rw [if_pos he] at hfa
        cases hu : findUser db a.employee_id with
        | none => simp [hu] at hfa
        | some e =>
          simp only [hu] at hfa
          cases hm : findUser db j.employer_id with
          | none => simp [hm] at hfa
          | some emp =>
            simp only [hm, Option.some.injEq] at hfa
            subst hfa
            exact he
      · rw [if_neg he] at hfa
        simp at hfa
  · intro rows r hr
    have h := List.mem_filter.mp hr
    simpa using h.2

/-- Witness for C6: in the fixture, every row of the employer-1 listing and of
the defensive filter over it carries `employer_id = 1`. -/
theorem C6_employer_scoping_witness :
    (∀ r ∈ ApplicationService.getEmployerApplications 1 dbW, r.employer_id = 1) ∧
    (∀ r ∈ ApplicationController.authorizedApplications 1
        (ApplicationService.getEmployerApplications 1 dbW), r.employer_id = 1) :=
  ⟨(C6_employer_scoping 1 dbW).1,
   (C6_employer_scoping 1 dbW).2 (ApplicationService.getEmployerApplications 1 dbW)⟩

/-- C4: the outcome of the external notification delivery (`emailOk`) never
changes what `updateApplicationStatus` returns or commits: the boolean result
and the database state agree between a failed and a successful delivery, and
the same dispatch attempts are made. -/
theorem C4_notification_failure_harmless (appId : Nat) (st : Status) (uid : Nat)
    (role : Role) (now : Nat) (db : DB) :
    (ApplicationService.updateApplicationStatus appId st uid role now false db).ok =
      (ApplicationService.updateApplicationStatus appId st uid role now true db).ok ∧
    (ApplicationService.updateApplicationStatus appId st uid role now false db).db =
      (ApplicationService.updateApplicationStatus appId st uid role now true db).db ∧
    (ApplicationService.updateApplicationStatus appId st uid role now false db).attempts.map
        Prod.fst =
      (ApplicationService.updateApplicationStatus appId st uid role now true db).attempts.map
        Prod.fst := by
  unfold ApplicationService.updateApplicationStatus
  cases hd : getAppDetails db appId with
  | none => simp
  | some d =>
    by_cases hc : canUpdate d uid role = true
    · simp only [hc, if_true]
      by_cases hu : db.applications.any (updateWhere db appId uid role) = true
      · simp only [hu, if_true]
        split_ifs <;> simp
      · simp only [Bool.not_eq_true] at hu
        simp [hu]
    · simp only [Bool.not_eq_true] at hc
      simp [hc]

/-- C1: `updateApplicationStatus` returns `true` — and commits the status
change — exactly when the target application exists and the actor is
authorized against the persisted record (owning employer, or the applicant
employee); in every other case it returns the same plain `false` and leaves
the database, hence the application's `status` and `updated_at`, unchanged. -/
theorem C1_updateStatus_authorization (appId : Nat) (st : Status) (uid : Nat)
    (role : Role) (now : Nat) (emailOk : Bool) (db : DB) (hwf : Wf db) :
    ((ApplicationService.updateApplicationStatus appId st uid role now emailOk
        db).ok = true ↔
      ∃ a ∈ db.applications, a.id = appId ∧ authorizedFor db a uid role) ∧
    ((ApplicationService.updateApplicationStatus appId st uid role now emailOk
        db).ok = true →
      ∃ a ∈ db.applications, a.id = appId ∧
        { a with status := st, updated_at := now } ∈
          (ApplicationService.updateApplicationStatus appId st uid role now
            emailOk db).db.applications) ∧
    ((ApplicationService.updateApplicationStatus appId st uid role now emailOk
        db).ok = false →
      (ApplicationService.updateApplicationStatus appId st uid role now emailOk
        db).db = db) := by
  refine ⟨updateStatus_ok_iff st now emailOk hwf, ?_,
    fun hok => (updateStatus_false_frame st now emailOk hok).1⟩
  intro hok
  obtain ⟨d, hd, hc⟩ := updateStatus_ok_cases hok
  obtain ⟨hmem, hid, _⟩ := getAppDetails_spec hd
  exact ⟨d.app, hmem, hid, updateStatus_commit st now emailOk hd hc⟩

/-- Witness for C1: the owning employer 1 updating application 100 in the
well-formed fixture. -/
theorem C1_updateStatus_authorization_witness :
    Wf dbW ∧
    (((ApplicationService.updateApplicationStatus 100 .viewed 1 .employer 5 true
        dbW).ok = true ↔
      ∃ a ∈ dbW.applications, a.id = 100 ∧ authorizedFor dbW a 1 .employer) ∧
    ((ApplicationService.updateApplicationStatus 100 .viewed 1 .employer 5 true
        dbW).ok = true →
      ∃ a ∈ dbW.applications, a.id = 100 ∧
        { a with status := .viewed, updated_at := 5 } ∈
          (ApplicationService.updateApplicationStatus 100 .viewed 1 .employer 5
            true dbW).db.applications) ∧
    ((ApplicationService.updateApplicationStatus 100 .viewed 1 .employer 5 true
        dbW).ok = false →
      (ApplicationService.updateApplicationStatus 100 .viewed 1 .employer 5 true
        dbW).db = dbW)) :=
  ⟨by decide, C1_updateStatus_authorization 100 .viewed 1 .employer 5 true dbW
    (by decide)⟩

/-- C8: a successful update is frame-bounded — users, jobs and the id counter
are untouched, no application row is added or removed, every row other than
the target is unchanged, and the target keeps its `job_id`, `employee_id`,
`applied_at` and attachment fields, changing only `status` and `updated_at`,
the latter to a value `≥` its previous one. -/
theorem C8_updateStatus_frame (appId : Nat) (st : Status) (uid : Nat)
    (role : Role) (now : Nat) (emailOk : Bool) (db : DB) (hwf : Wf db)
    (hts : ∀ b ∈ db.applications, b.updated_at ≤ now)
    (hok : (ApplicationService.updateApplicationStatus appId st uid role now
      emailOk db).ok = true) :
    (ApplicationService.updateApplicationStatus appId st uid role now emailOk
        db).db.users = db.users ∧
    (ApplicationService.updateApplicationStatus appId st uid role now emailOk
        db).db.jobs = db.jobs ∧
    (ApplicationService.updateApplicationStatus appId st uid role now emailOk
        db).db.nextAppId = db.nextAppId ∧
    (ApplicationService.updateApplicationStatus appId st uid role now emailOk
        db).db.applications.length = db.applications.length ∧
    ∃ a ∈ db.applications, a.id = appId ∧ a.updated_at ≤ now ∧
      ({ a with status := st, updated_at := now } ∈
        (ApplicationService.updateApplicationStatus appId st uid role now
          emailOk db).db.applications) ∧
      (∀ b ∈ db.applications, b.id ≠ appId →
        b ∈ (ApplicationService.updateApplicationStatus appId st uid role now
          emailOk db).db.applications) ∧
      (∀ b' ∈ (ApplicationService.updateApplicationStatus appId st uid role now
          emailOk db).db.applications,
        b' ∈ db.applications ∨ b' = { a with status := st, updated_at := now }) := by
  obtain ⟨d, hd, hc⟩ := updateStatus_ok_cases hok
  obtain ⟨hmem, hid, _⟩ := getAppDetails_spec hd
  have hcommit := updateStatus_commit st now emailOk hd hc
  rw [updateStatus_auth_unfold st now emailOk hd hc] at hcommit ⊢
  refine ⟨rfl, rfl, rfl, List.length_map _ _, d.app, hmem, hid, hts d.app hmem,
    hcommit, ?_, ?_⟩
  · intro b hb hbid
    have hpb : updateWhere db appId uid role b = false := by
      cases hpb : updateWhere db appId uid role b
      · rfl
      · exact absurd (updateWhere_id hpb) hbid
    have hmm := List.mem_map_of_mem
      (fun a => if updateWhere db appId uid role a then
        { a with status := st, updated_at := now } else a) hb
    simpa [hpb] using hmm
  · intro b' hb'
    obtain ⟨b, hb, hfb⟩ := List.mem_map.mp hb'
    by_cases hpb : updateWhere db appId uid role b = true
    · right
      have hbid := updateWhere_id hpb
      have hbd : b = d.app := key_inj_of_nodup (fun a : Application => a.id)
        hwf.1 hb hmem (by show b.id = d.app.id; rw [hbid, hid])
      subst hbd
      rw [← hfb]
      simp [hpb]
    · left
      have hpb' : updateWhere db appId uid role b = false := by
        cases hpb'' : updateWhere db appId uid role b
        · rfl
        · exact absurd hpb'' hpb
      rw [← hfb]
      simpa [hpb'] using hb

/-- Witness for C8: the applicant employee 4 moves application 100 to
`accepted` at time 5 in the well-formed fixture. -/
theorem C8_updateStatus_frame_witness :
    Wf dbW ∧ (∀ b ∈ dbW.applications, b.updated_at ≤ 5) ∧
    (ApplicationService.updateApplicationStatus 100 .accepted 4 .employee 5 true
      dbW).ok = true ∧
    ((ApplicationService.updateApplicationStatus 100 .accepted 4 .employee 5
        true dbW).db.users = dbW.users ∧
    (ApplicationService.updateApplicationStatus 100 .accepted 4 .employee 5 true
        dbW).db.jobs = dbW.jobs ∧
    (ApplicationService.updateApplicationStatus 100 .accepted 4 .employee 5 true
        dbW).db.nextAppId = dbW.nextAppId ∧
    (ApplicationService.updateApplicationStatus 100 .accepted 4 .employee 5 true
        dbW).db.applications.length = dbW.applications.length ∧
    ∃ a ∈ dbW.applications, a.id = 100 ∧ a.updated_at ≤ 5 ∧
      ({ a with status := .accepted, updated_at := 5 } ∈
        (ApplicationService.updateApplicationStatus 100 .accepted 4 .employee 5
          true dbW).db.applications) ∧
      (∀ b ∈ dbW.applications, b.id ≠ 100 →
        b ∈ (ApplicationService.updateApplicationStatus 100 .accepted 4
          .employee 5 true dbW).db.applications) ∧
      (∀ b' ∈ (ApplicationService.updateApplicationStatus 100 .accepted 4
          .employee 5 true dbW).db.applications,
        b' ∈ dbW.applications ∨
          b' = { a with status := .accepted, updated_at := 5 })) :=
  ⟨by decide, by decide, by decide,
   C8_updateStatus_frame 100 .accepted 4 .employee 5 true dbW (by decide)
     (by decide) (by decide)⟩

/-- C3: a successful update dispatches exactly one notification — carrying the
application id, the new status, the job title, the employer name and the
employee's email and name — precisely when the actor is an employer setting
shortlisted, accepted or rejected; an employee actor, or a change to applied
or viewed, dispatches none. -/
theorem C3_notification_dispatch (appId : Nat) (st : Status) (uid : Nat)
    (role : Role) (now : Nat) (emailOk : Bool) (db : DB)
    (hok : (ApplicationService.updateApplicationStatus appId st uid role now
      emailOk db).ok = true) :
    (role = .employer ∧ (st = .shortlisted ∨ st = .accepted ∨ st = .rejected) →
      ∃ a j eu mu, findApp db appId = some a ∧ findJob db a.job_id = some j ∧
        findUser db a.employee_id = some eu ∧
        findUser db j.employer_id = some mu ∧
        (ApplicationService.updateApplicationStatus appId st uid role now
          emailOk db).attempts =
          [({ application_id := appId, new_status := st, job_title := j.title,
              employer_name := mu.name, employee_email := eu.email,
              employee_name := eu.name }, emailOk)]) ∧
    (role = .employee ∨ st = .applied ∨ st = .viewed →
      (ApplicationService.updateApplicationStatus appId st uid role now emailOk
        db).attempts = []) := by
  obtain ⟨d, hd, hc⟩ := updateStatus_ok_cases hok
  have hfa := getAppDetails_findApp hd
  obtain ⟨hmem, hid, j, hfj, hjmem, hjid, hemp, htitle, ⟨eu, hfu, hee, hen⟩,
    ⟨mu, hfm, hmn⟩⟩ := getAppDetails_spec hd
  rw [updateStatus_auth_unfold st now emailOk hd hc]
  constructor
  · rintro ⟨hrole, hst⟩
    refine ⟨d.app, j, eu, mu, hfa, hfj, hfu, hfm, ?_⟩
    rw [if_pos ⟨hrole, hst⟩, htitle, hmn, hee, hen]
  · intro hneg
    have hnot : ¬(role = .employer ∧
        (st = .shortlisted ∨ st = .accepted ∨ st = .rejected)) := by
      rintro ⟨hrole, hst⟩
      rcases hneg with h | h | h
      · subst h; exact Role.noConfusion hrole
      · subst h; rcases hst with h' | h' | h' <;> exact Status.noConfusion h'
      · subst h; rcases hst with h' | h' | h' <;> exact Status.noConfusion h'
    rw [if_neg hnot]

/-- Witness for C3: employer 1 shortlists application 100 in the fixture; the
single dispatch attempt carries job title "T", employer name "M", employee
email "e" and employee name "E". -/
theorem C3_notification_dispatch_witness :
    (ApplicationService.updateApplicationStatus 100 .shortlisted 1 .employer 5
      true dbW).ok = true ∧
    ((Role.employer = .employer ∧ (Status.shortlisted = .shortlisted ∨
        Status.shortlisted = .accepted ∨ Status.shortlisted = .rejected) →
      ∃ a j eu mu, findApp dbW 100 = some a ∧ findJob dbW a.job_id = some j ∧
        findUser dbW a.employee_id = some eu ∧
        findUser dbW j.employer_id = some mu ∧
        (ApplicationService.updateApplicationStatus 100 .shortlisted 1 .employer
          5 true dbW).attempts =
          [({ application_id := 100, new_status := .shortlisted,
              job_title := j.title, employer_name := mu.name,
              employee_email := eu.email, employee_name := eu.name }, true)]) ∧
    (Role.employer = .employee ∨ Status.shortlisted = .applied ∨
        Status.shortlisted = .viewed →
      (ApplicationService.updateApplicationStatus 100 .shortlisted 1 .employer 5
        true dbW).attempts = [])) :=
  ⟨by decide,
   C3_notification_dispatch 100 .shortlisted 1 .employer 5 true dbW (by decide)⟩

theorem find?_eq_some_of_unique {α : Type} {p : α → Bool} {l : List α} {a : α}
    (ha : a ∈ l) (hpa : p a = true) (huniq : ∀ b ∈ l, p b = true → b = a) :
    l.find? p = some a := by
  induction l with
  | nil => cases ha
  | cons c t ih =>
    by_cases hc : p c = true
    · have hca : c = a := huniq c (List.mem_cons_self c t) hc
      subst hca
      exact List.find?_cons_of_pos _ hc
    · have hat : a ∈ t := by
        rcases List.mem_cons.mp ha with h | h
        · exact absurd (h ▸ hpa) hc
        · exact h
      rw [List.find?_cons_of_neg _ hc]
      exact ih hat (fun b hb hpb => huniq b (List.mem_cons_of_mem c hb) hpb)

theorem parseStatus_none_not_valid {s : String} (hs : parseStatus s = none) :
    s ∉ validStatuses := by
  intro hmem
  simp only [validStatuses, List.mem_cons, List.not_mem_nil, or_false] at hmem
  rcases hmem with h | h | h | h | h <;> subst h <;> simp [parseStatus] at hs

/-- The raw-status service never commits anything for an out-of-enum status:
either it returns `false` untouched, or the CHECK constraint rejects the
UPDATE and the error propagates, also untouched. -/
theorem updateStatusRaw_invalid_frame (appId : Nat) (s : String) (uid : Nat)
    (role : Role) (now : Nat) (emailOk : Bool) (db : DB)
    (hs : parseStatus s = none) :
    (ApplicationService.updateApplicationStatusRaw appId s uid role now emailOk
        db).2.1 = db ∧
    (ApplicationService.updateApplicationStatusRaw appId s uid role now emailOk
        db).2.2 = [] := by
  unfold ApplicationService.updateApplicationStatusRaw
  cases hd : getAppDetails db appId with
  | none => exact ⟨rfl, rfl⟩
  | some d =>
    by_cases hc : canUpdate d uid role = true
    · simp [hc, hs]
    · simp only [Bool.not_eq_true] at hc
      simp [hc]

/-- C9 counterexample fixture behaviour is stated over `dbW`: application 100
exists and employer 1 is authorized, so the raw status string reaches the
UPDATE statement itself. -/
theorem C9_counterexample_core_no_revalidation :
    parseStatus "bogus" = none ∧
    ApplicationService.updateApplicationStatusRaw 100 "bogus" 1 .employer 5 true
        dbW = (.checkViolationRaised, dbW, []) := by
  constructor
  · rfl
  · decide

/-- C9 (amended): the boundary layer rejects any status outside the closed
enum with a 400 before any service call and without touching the database;
the core service itself performs no runtime re-validation — an invalid status
handed directly to it passes the lookup and security check and is stopped
only by the database CHECK constraint, surfacing as a raised error — but in
every case the database is left unchanged and no notification is attempted. -/
theorem C9_invalid_status_rejected (appId : Nat) (s : String) (uid : Nat)
    (role : Role) (now : Nat) (emailOk : Bool) (db : DB)
    (hs : parseStatus s = none) :
    (s ∉ validStatuses ∧
     ApplicationController.updateApplicationStatus appId s uid role now emailOk
         db = (.badRequest "Valid status is required", db, [])) ∧
    ((ApplicationService.updateApplicationStatusRaw appId s uid role now emailOk
        db).2.1 = db ∧
     (ApplicationService.updateApplicationStatusRaw appId s uid role now emailOk
        db).2.2 = []) := by
  have hnv := parseStatus_none_not_valid hs
  refine ⟨⟨hnv, ?_⟩, updateStatusRaw_invalid_frame appId s uid role now emailOk db hs⟩
  unfold ApplicationController.updateApplicationStatus
  rw [if_pos hnv]

/-- Witness for C9 (amended): the string "bogus". -/
theorem C9_invalid_status_rejected_witness :
    parseStatus "bogus" = none ∧
    (("bogus" ∉ validStatuses ∧
      ApplicationController.updateApplicationStatus 100 "bogus" 4 .employee 5
          true dbW = (.badRequest "Valid status is required", dbW, [])) ∧
     ((ApplicationService.updateApplicationStatusRaw 100 "bogus" 4 .employee 5
         true dbW).2.1 = dbW ∧
      (ApplicationService.updateApplicationStatusRaw 100 "bogus" 4 .employee 5
         true dbW).2.2 = [])) :=
  ⟨rfl, C9_invalid_status_rejected 100 "bogus" 4 .employee 5 true dbW rfl⟩

theorem getApplicationById_none {db : DB} {appId : Nat}
    (h : ¬ ∃ a ∈ db.applications, a.id = appId) :
    ApplicationService.getApplicationById db appId = none := by
  have hfa : findApp db appId = none := by
    unfold findApp
    rw [List.find?_eq_none]
    intro a ha
    simp only [decide_eq_true_eq]
    exact fun hid => h ⟨a, ha, hid⟩
  unfold ApplicationService.getApplicationById
  rw [hfa]

theorem getApplicationById_of_mem {db : DB} {appId : Nat} (hwf : Wf db)
    {a : Application} (ha : a ∈ db.applications) (hid : a.id = appId)
    {j : Job} (hj : j ∈ db.jobs) (hjid : j.id = a.job_id) :
    ∃ u, findUser db a.employee_id = some u ∧
      ApplicationService.getApplicationById db appId =
        some { app := a, employer_id := j.employer_id, job_title := j.title,
               employee_name := u.name } := by
  obtain ⟨hnda, hndj, hndu, hint1, hint2, hint3⟩ := hwf
  have hfa := findApp_of_mem hnda ha hid
  have hfj := findJob_of_mem hndj hj hjid
  obtain ⟨u, humem, huid⟩ := hint2 a ha
  have hfu := findUser_of_mem hndu humem huid
  refine ⟨u, hfu, ?_⟩
  unfold ApplicationService.getApplicationById
  simp only [hfa, hfj, hfu]

/-- C10: with a valid status, the employer-side handler distinguishes the two
causes the service merges: a non-existent application id yields the 404
response 'Application not found', while an existing application whose job
belongs to a different employer yields the distinct 403 response 'Access
denied' — so an employer caller can tell from the response whether the
application exists. -/
theorem C10_employer_notfound_vs_denied (appId : Nat) (s : String) (uid : Nat)
    (now : Nat) (emailOk : Bool) (db : DB) (hwf : Wf db)
    (hs : s ∈ validStatuses) :
    ((¬ ∃ a ∈ db.applications, a.id = appId) →
      ApplicationController.updateApplicationStatus appId s uid .employer now
          emailOk db = (.notFound "Application not found", db, [])) ∧
    (∀ a ∈ db.applications, a.id = appId →
      ∀ j ∈ db.jobs, j.id = a.job_id → j.employer_id ≠ uid →
        ApplicationController.updateApplicationStatus appId s uid .employer now
            emailOk db = (.forbidden "Access denied", db, [])) ∧
    (CtrlResponse.notFound "Application not found" ≠
      CtrlResponse.forbidden "Access denied") := by
  refine ⟨?_, ?_, by simp⟩
  · intro hne
    have hnone := getApplicationById_none hne
    unfold ApplicationController.updateApplicationStatus
    rw [if_neg (not_not_intro hs)]
    simp [hnone]
  · intro a ha hid j hj hjid hne
    obtain ⟨u, hfu, hsome⟩ := getApplicationById_of_mem hwf ha hid hj hjid
    unfold ApplicationController.updateApplicationStatus
    rw [if_neg (not_not_intro hs)]
    simp [hsome, hne]

/-- Witness for C10: in the fixture, employer 1 probing the non-existent
application 999 receives the 404 'Application not found', while employer 2
probing employer 1's application 100 receives the 403 'Access denied'. -/
theorem C10_employer_notfound_vs_denied_witness :
    Wf dbW ∧ "viewed" ∈ validStatuses ∧
    (¬ ∃ a ∈ dbW.applications, a.id = 999) ∧
    ApplicationController.updateApplicationStatus 999 "viewed" 1 .employer 5
        true dbW = (.notFound "Application not found", dbW, []) ∧
    ApplicationController.updateApplicationStatus 100 "viewed" 2 .employer 5
        true dbW = (.forbidden "Access denied", dbW, []) ∧
    (CtrlResponse.notFound "Application not found" ≠
      CtrlResponse.forbidden "Access denied") :=
  ⟨by decide, by decide, by decide,
   (C10_employer_notfound_vs_denied 999 "viewed" 1 5 true dbW (by decide)
     (by decide)).1 (by decide),
   (C10_employer_notfound_vs_denied 100 "viewed" 2 5 true dbW (by decide)
     (by decide)).2.1
     ⟨100, 10, 4, .applied, 0, 0, none, none, none, none, none, none⟩
     (by decide) (by decide) ⟨10, 1, "T", true, 0⟩ (by decide) (by decide)
     (by decide),
   (C10_employer_notfound_vs_denied 100 "viewed" 2 5 true dbW (by decide)
     (by decide)).2.2⟩

theorem getJobById_public_of_mem {db : DB} {jobId : Nat} (hwf : Wf db)
    {j : Job} (hj : j ∈ db.jobs) (hjid : j.id = jobId)
    (hact : j.is_active = true) : JobService.getJobById jobId none db = some j := by
  obtain ⟨hnda, hndj, hndu, hint1, hint2, hint3⟩ := hwf
  have hfind : db.jobs.find? (fun b => decide (b.id = jobId) &&
      (match (none : Option Nat) with
       | some e => decide (b.employer_id = e)
       | none => b.is_active)) = some j := by
    apply find?_eq_some_of_unique hj
    · simp [hjid, hact]
    · intro b hb hpb
      simp only [Bool.and_eq_true, decide_eq_true_eq] at hpb
      exact key_inj_of_nodup (fun x : Job => x.id) hndj hb hj
        (by show b.id = j.id; rw [hpb.1, hjid])
  obtain ⟨u, humem, huid⟩ := hint3 j hj
  have hfu := findUser_of_mem hndu humem huid
  unfold JobService.getJobById
  simp only [hfind, hfu]

/-- C7 counterexample: the inactive job 11 still has one application, yet the
delete handler's public job lookup misses inactive jobs, so the owning
employer's hard-delete attempt is answered with the 404 'Job not found'
response and not with the blocking-application count the claim promises. -/
theorem C7_counterexample_inactive_job_no_count :
    countApplicationsForJob 11 db7 = 1 ∧
    JobController.deleteJob 11 1 .employer db7 = (.notFoundJob, db7) ∧
    JobDeleteResponse.notFoundJob ≠ .blockedWithCount 1 := by decide

/-- C7 (amended): for an *active* job, a hard-delete request by its owning
employer is blocked with the count of blocking applications whenever at least
one application exists (and the database is untouched); soft deactivation by
the owner always returns `true`, regardless of how many applications exist.
For an inactive or non-owned job the hard delete also fails, but with a
not-found/denied response that carries no count. -/
theorem C7_job_delete_guard (jobId uid now : Nat) (db : DB) (hwf : Wf db)
    (j : Job) (hj : j ∈ db.jobs) (hjid : j.id = jobId)
    (hact : j.is_active = true) (hown : j.employer_id = uid)
    (happs : 0 < countApplicationsForJob jobId db) :
    JobController.deleteJob jobId uid .employer db =
      (.blockedWithCount (countApplicationsForJob jobId db), db) ∧
    (JobService.deleteJob jobId uid now db).1 = true := by
  constructor
  · have hg := getJobById_public_of_mem hwf hj hjid hact
    have hchk : JobService.checkJobHasApplications jobId db = true := by
      unfold JobService.checkJobHasApplications
      simpa using happs
    unfold JobController.deleteJob
    simp only [hg]
    rw [if_neg (fun h => h hown), if_pos hchk]
  · exact List.any_eq_true.mpr ⟨j, hj, by simp [hjid, hown]⟩

/-- Witness for C7 (amended): employer 1 tries to hard-delete the active job
10 which has one application; the request is blocked with count 1 while soft
deactivation succeeds. -/
theorem C7_job_delete_guard_witness :
    Wf dbW ∧ 0 < countApplicationsForJob 10 dbW ∧
    (JobController.deleteJob 10 1 .employer dbW =
      (.blockedWithCount (countApplicationsForJob 10 dbW), dbW) ∧
    (JobService.deleteJob 10 1 5 dbW).1 = true) :=
  ⟨by decide, by decide,
   C7_job_delete_guard 10 1 5 dbW (by decide) ⟨10, 1, "T", true, 0⟩ (by decide)
     (by decide) (by decide) (by decide) (by decide)⟩

end JobBoard
